import Mathlib

/-
Verification of the spatial-audio subsystem of the game_engine repository
(src/audio.rs), as a shallow embedding in Lean 4.

Modelling conventions:
* f32 PCM samples are modelled as rationals (`Sample := ℚ`).
* `std::time::Duration` is modelled as a total nanosecond count (ℕ).
* `Vec<T>` and `vec::IntoIter<T>` are modelled as `List T`; an iterator is
  identified with the list of its remaining elements.
* `HashMap<u32, V>` registries are modelled as association lists `List (ℕ × V)`
  with first-match lookup; key-indexed mutation rewrites the matching entry.
* The rodio `Sink` is modelled by its queued-source count (rodio `Sink::len`),
  which is the only observable `update` interrogates.
* The native Steam Audio effect applications (FFI calls behind
  `steam_audio_bindgen`) and the vector/rotor operations of the `math_3d` /
  `transform` modules (declared in lib.rs but not part of the audio sources)
  are modelled as opaque pure functions supplied by an environment record,
  per the spec's description of the transform chain as stateless per call.
-/

namespace GameEngine

/-- A PCM sample (f32 in the source, modelled as a rational number). -/
abbrev Sample := ℚ

/-- Constant MAXSINKS from src/audio.rs. -/
def MAXSINKS : ℕ := 32

/-- Constant FRAMES_TO_BUFFER from src/audio.rs (sink low-water mark). -/
def FRAMES_TO_BUFFER : ℕ := 2

/-- Constant FRAME_SIZE from src/audio.rs (samples per block). -/
def FRAME_SIZE : ℕ := 1024

/-- Constant SAMPLE_RATE from src/audio.rs. -/
def SAMPLE_RATE : ℕ := 44100

/-- Duration::from_millis, in the nanosecond model of std::time::Duration. -/
def durFromMillis (ms : ℕ) : ℕ := ms * 1000000

/-- Duration::new(secs, nanos), in the nanosecond model of Duration. -/
def durNew (secs nanos : ℕ) : ℕ := secs * 1000000000 + nanos

/-- SoundFrame from src/audio.rs: one fixed-size block of PCM data together
with its metadata.  The `data` iterator is modelled by the list of its
remaining samples. -/
structure SoundFrame where
  data : List Sample
  duration : ℕ
  channels : ℕ
  sample_rate : ℕ
  size : ℕ
deriving DecidableEq

/-- Sound from src/audio.rs: a sequence of frames (the `frames` iterator is
modelled by the list of its remaining frames) plus summary metadata. -/
structure Sound where
  frames : List SoundFrame
  channels : ℕ
  sample_rate : ℕ
  duration : ℕ
deriving DecidableEq

/-- Fuel-indexed helper for slice::chunks: with enough fuel it splits a list
into successive chunks of `n` elements, the last chunk possibly shorter. -/
def chunksFuel {α : Type} (n : ℕ) : ℕ → List α → List (List α)
  | _, [] => []
  | 0, _ :: _ => []
  | fuel + 1, a :: l => ((a :: l).take n) :: chunksFuel n fuel ((a :: l).drop n)

/-- slice::chunks(n) from Rust, as used by Sound::new (callers guarantee
0 < n; the source passes FRAME_SIZE.max(1)). -/
def rustChunks {α : Type} (n : ℕ) (l : List α) : List (List α) :=
  chunksFuel n l.length l

/-- Sound::new from src/audio.rs.  The source asserts that `data` is
non-empty; the assertion failure is modelled as `none`.  u64 arithmetic is
modelled on ℕ (no input considered here approaches overflow), and integer
division is Rust's truncating division. -/
def Sound.new? (data : List Sample) (channels : ℕ) (sample_rate : ℕ) :
    Option Sound :=
  if data = [] then none
  else
    let duration_ms := 1000 * (data.length * FRAME_SIZE) / sample_rate / channels
    let duration := durFromMillis duration_ms
    let duration_ns := 1000000000 * FRAME_SIZE / sample_rate / channels
    let frame_duration := durNew (duration_ns / 1000000000) (duration_ns % 1000000000)
    let frames := (rustChunks (max FRAME_SIZE 1) data).map (fun c =>
      let v := c ++ List.replicate (FRAME_SIZE - c.length) (0 : Sample)
      { size := v.length
        data := v
        channels := channels
        sample_rate := sample_rate
        duration := frame_duration : SoundFrame })
    some { frames := frames, channels := channels, sample_rate := sample_rate,
           duration := duration }

/- Chunking lemmas. -/

theorem chunksFuel_length {α : Type} (n : ℕ) (hn : 0 < n) :
    ∀ (fuel : ℕ) (l : List α), l.length ≤ fuel →
      (chunksFuel n fuel l).length = (l.length + (n - 1)) / n := by
  intro fuel
  induction fuel with
  | zero =>
    intro l hl
    cases l with
    | nil =>
      simp [chunksFuel, Nat.div_eq_of_lt (by omega : n - 1 < n)]
    | cons a t => simp at hl
  | succ fuel ih =>
    intro l hl
    cases l with
    | nil =>
      simp [chunksFuel, Nat.div_eq_of_lt (by omega : n - 1 < n)]
    | cons a t =>
      have hdrop : ((a :: t).drop n).length ≤ fuel := by
        simp only [List.length_drop, List.length_cons]
        simp only [List.length_cons] at hl
        omega
      have := ih ((a :: t).drop n) hdrop
      simp only [chunksFuel, List.length_cons, this, List.length_drop]
      rcases Nat.lt_or_ge (t.length + 1) n with hlt | hge
      · have h1 : t.length + 1 - n = 0 := by omega
        have h2 : (t.length + 1 + (n - 1)) / n = 1 := by
          apply Nat.div_eq_of_lt_le <;> omega
        rw [h1, h2]
        simp [Nat.div_eq_of_lt (by omega : n - 1 < n)]
      · have h3 : t.length + 1 + (n - 1) = (t.length + 1 - n + (n - 1)) + n := by
          omega
        rw [h3, Nat.add_div_right _ hn]

theorem chunksFuel_mem_length_le {α : Type} (n : ℕ) :
    ∀ (fuel : ℕ) (l : List α) (c : List α), c ∈ chunksFuel n fuel l →
      c.length ≤ n := by
  intro fuel
  induction fuel with
  | zero =>
    intro l c hc
    cases l <;> simp [chunksFuel] at hc
  | succ fuel ih =>
    intro l c hc
    cases l with
    | nil => simp [chunksFuel] at hc
    | cons a t =>
      simp only [chunksFuel, List.mem_cons] at hc
      rcases hc with hc | hc
      · subst hc
        simp only [List.length_take]
        omega
      · exact ih _ _ hc

theorem chunksFuel_mem_ne_nil {α : Type} (n : ℕ) (hn : 0 < n) :
    ∀ (fuel : ℕ) (l : List α) (c : List α), c ∈ chunksFuel n fuel l →
      c ≠ [] := by
  intro fuel
  induction fuel with
  | zero =>
    intro l c hc
    cases l <;> simp [chunksFuel] at hc
  | succ fuel ih =>
    intro l c hc
    cases l with
    | nil => simp [chunksFuel] at hc
    | cons a t =>
      simp only [chunksFuel, List.mem_cons] at hc
      rcases hc with hc | hc
      · subst hc
        cases n with
        | zero => omega
        | succ m => simp [List.take_cons]
      · exact ih _ _ hc

theorem chunksFuel_nil {α : Type} (n fuel : ℕ) :
    chunksFuel (α := α) n fuel [] = [] := by
  cases fuel <;> rfl

theorem chunksFuel_padded_join (n : ℕ) (hn : 0 < n) :
    ∀ (fuel : ℕ) (l : List Sample), l.length ≤ fuel →
      ((chunksFuel n fuel l).map
        (fun c => c ++ List.replicate (n - c.length) (0 : Sample))).flatten
      = l ++ List.replicate ((chunksFuel n fuel l).length * n - l.length) 0 := by
  intro fuel
  induction fuel with
  | zero =>
    intro l hl
    cases l with
    | nil => simp [chunksFuel]
    | cons a t => simp at hl
  | succ fuel ih =>
    intro l hl
    cases l with
    | nil => simp [chunksFuel]
    | cons a t =>
      have hdrop : ((a :: t).drop n).length ≤ fuel := by
        simp only [List.length_drop, List.length_cons]
        simp only [List.length_cons] at hl
        omega
      have ihd := ih ((a :: t).drop n) hdrop
      simp only [chunksFuel, List.map_cons, List.flatten_cons, ihd]
      rcases Nat.lt_or_ge (t.length + 1) n with hlt | hge
      · have hdropnil : (a :: t).drop n = [] := by
          apply List.drop_eq_nil_of_le
          simp
          omega
        have htake : (a :: t).take n = a :: t := by
          apply List.take_of_length_le
          simp
          omega
        rw [hdropnil, htake, chunksFuel_nil]
        simp [List.append_assoc]
      · have htakelen : ((a :: t).take n).length = n := by
          simp only [List.length_take, List.length_cons]
          omega
        have hpad : n - ((a :: t).take n).length = 0 := by rw [htakelen]; omega
        rw [hpad]
        simp only [List.replicate_zero, List.append_nil, List.length_cons]
        rw [← List.append_assoc, List.take_append_drop]
        congr 2
        simp only [List.length_drop, List.length_cons, add_mul, one_mul]
        generalize (chunksFuel n fuel ((a :: t).drop n)).length * n = K
        omega

/-- Modelled from the spec: a 3-vector from the math_3d module (the module is
declared in lib.rs but is not among the audio sources). -/
structure Vec3 where
  x : ℚ
  y : ℚ
  z : ℚ
deriving DecidableEq

/-- Modelled from the spec: component-wise vector subtraction (math_3d). -/
def vsub (a b : Vec3) : Vec3 := ⟨a.x - b.x, a.y - b.y, a.z - b.z⟩

/-- Modelled from the spec: Transform3 from the transform module — a position
and an orientation.  The audio code reads the orientation only through its
forward axis (`transform.rot.forward()`), so `rot` stores that axis. -/
structure Transform3 where
  pos : Vec3
  rot : Vec3
deriving DecidableEq

/-- IPLAmbisonicsEncodeEffectParams as set by apply_convolutions: an encode
direction and the ambisonics order. -/
structure EncodeParams where
  direction : Vec3
  order : ℕ
deriving DecidableEq

/-- IPLDirectEffectParams as set by apply_convolutions (the constant flag and
transmission-type fields are omitted; they never vary). -/
structure DirectParams where
  distanceAttenuation : ℚ
  airAbsorption : ℚ × ℚ × ℚ
  directivity : ℚ
  occlusion : ℚ
  transmission : ℚ × ℚ × ℚ
deriving DecidableEq

/-- The distance-attenuation coefficient computed by
Listener::apply_convolutions (src/audio.rs line 358): the reciprocal of the
emitter-listener distance, with no minimum-distance clamp. -/
def distanceAttenuation (dist : ℚ) : ℚ := 1 / dist

/-- Modelled from the spec: the operations the audio code consumes from
outside the audio sources — the math_3d vector length and normalization, the
Rotor3 construction (`Rotor3::from_vectors(a, b).forward().normal()` is
`rotorForwardNormal a b`), and the native Steam Audio planar-to-interleaved
buffer conversion.  All are pure functions, matching the spec's
stateless-per-call description of the transform chain. -/
structure AudioEnv where
  length : Vec3 → ℚ
  normal : Vec3 → Vec3
  rotorForwardNormal : Vec3 → Vec3 → Vec3
  interleave : List Sample → List Sample

/-- SoundPlayback from src/audio.rs. -/
inductive SoundPlayback
  | Once
  | Loop
  | PingPong
  | Partial (lo hi : ℚ)

/-- Emitter from src/audio.rs.  The per-emitter native effect stages are
opaque native objects created at construction; each is modelled from the
spec as the pure per-block transform it applies (parameterized where
apply_convolutions passes varying parameters).  The per-emitter rodio sink
is modelled by its queued-source count. -/
structure Emitter where
  transform : Transform3
  sounds : List Sound
  sound_playback : Option SoundPlayback
  sink : ℕ
  ambisonics_encode : EncodeParams → List Sample → List Sample
  ambisonics_decode : List Sample → List Sample
  ambisonics_binaural : List Sample → List Sample
  panning : Vec3 → List Sample → List Sample
  direct : DirectParams → List Sample → List Sample

/-- Listener from src/audio.rs. -/
structure Listener where
  transform : Transform3
  frame_count : ℕ
  audio_queue : List SoundFrame
  mono_buffer : List Sample
  stereo_buffer : List Sample
  ambisonics2_buffer : List Sample
  ambisonics1_buffer : List Sample

/-- First-match lookup in an association list (models HashMap::get; keys in
the modelled registries are unique). -/
def alistLookup {κ β : Type} [DecidableEq κ] : List (κ × β) → κ → Option β
  | [], _ => none
  | (k, v) :: rest, key => if k = key then some v else alistLookup rest key

/-- SoundLibrary from src/audio.rs: name-keyed registry of Sounds. -/
structure SoundLibrary where
  sounds : List (String × Sound)

/-- SoundLibrary::get_sound. -/
def SoundLibrary.get_sound (library : SoundLibrary) (name : String) :
    Option Sound :=
  alistLookup library.sounds name

/-- Emitter::with_sound (src/audio.rs lines 183-188): look the name up in the
library; on a hit, append a clone of the Sound at index `sounds.len()`
(i.e. push it at the end); on a miss, do nothing. -/
def Emitter.with_sound (e : Emitter) (sound_name : String)
    (library : SoundLibrary) : Emitter :=
  match library.get_sound sound_name with
  | some sound => { e with sounds := e.sounds ++ [sound] }
  | none => e

/-- One step of the frames iterator of a Sound (`self.frames.next()`):
yields the next frame and the advanced cursor; an exhausted cursor yields
`none` and is unchanged. -/
def Sound.nextFrame (s : Sound) : Option SoundFrame × Sound :=
  match s.frames with
  | [] => (none, s)
  | f :: rest => (some f, { s with frames := rest })

/-- Emitter::get_frames (src/audio.rs lines 191-203): advance every assigned
Sound's frame cursor once, collect the frames of the sounds that still had
data, and return `none` when that collection is empty. -/
def Emitter.get_frames (e : Emitter) : Option (List SoundFrame) × Emitter :=
  let stepped := e.sounds.map Sound.nextFrame
  let frames := stepped.filterMap Prod.fst
  ((if frames = [] then none else some frames),
   { e with sounds := stepped.map Prod.snd })

/-- The f32 Iterator on Sound (src/audio.rs lines 216-231).  Each call builds
a fresh Peekable around `&mut self.frames`; `peek_mut` pulls the next whole
SoundFrame out of the underlying iterator into the temporary peek slot, the
call returns that frame's first remaining sample, and the temporary Peekable
(holding the rest of the frame's samples) is dropped. -/
def Sound.next (s : Sound) : Option Sample × Sound :=
  match s.frames with
  | [] => (none, s)
  | f :: rest => (f.data.head?, { s with frames := rest })

/-- Driving Sound's sample iterator to completion, stopping at the first
`none`, as a Rust for-loop or collect would. -/
def collectFrames : List SoundFrame → List Sample
  | [] => []
  | f :: rest =>
    match f.data.head? with
    | some x => x :: collectFrames rest
    | none => []

/-- The full sample sequence produced by iterating a Sound to completion. -/
def Sound.collectSamples (s : Sound) : List Sample := collectFrames s.frames

/-- Listener::apply_convolutions (src/audio.rs lines 348-406).  The geometry
is computed from the two transforms, the distance attenuation is the
reciprocal of the emitter-listener distance, and the chain
encode → direct → binaural → interleave is applied to the frame's samples,
each native stage writing its result into the listener's scratch buffer.
The returned frame keeps every metadata field of the input frame except
`channels`, which is forced to 2, and `data`, which is replaced by the
interleaved stereo output. -/
def Listener.apply_convolutions (env : AudioEnv) (l : Listener)
    (frame : SoundFrame) (emitter : Emitter) : SoundFrame × Listener :=
  let emitter_position := vsub l.transform.pos emitter.transform.pos
  let emitter_position2 := vsub emitter.transform.pos l.transform.pos
  let direction := env.rotorForwardNormal l.transform.rot (env.normal emitter_position2)
  let distance := distanceAttenuation (env.length emitter_position)
  let mono_buffer := frame.data
  let amb1 := emitter.ambisonics_encode ⟨direction, 2⟩ mono_buffer
  let amb2 := emitter.direct
    ⟨distance, (distance * 3, distance * 2, distance * (5 / 2)), 1, 0,
      (3 / 10, 2 / 10, 1 / 10)⟩ amb1
  let stereo := emitter.ambisonics_binaural amb2
  let o := env.interleave stereo
  ({ frame with data := o, channels := 2 },
   { l with ambisonics1_buffer := amb1, ambisonics2_buffer := amb2,
            stereo_buffer := stereo })

/-- AudioSystem from src/audio.rs.  The rodio output stream and handle carry
no state observed by the verified operations; the device sink is modelled by
its queued-source count (rodio `Sink::len`).  Registries are association
lists keyed by the numeric uid. -/
structure AudioSystem where
  emitters : List (ℕ × Emitter)
  listeners : List (ℕ × Listener)
  library : SoundLibrary
  sink : ℕ

/-- The inner loop of AudioSystem::update for one listener: pull each
emitter's frames (advancing its sound cursors), spatialize every produced
frame against the listener, and accumulate the spatialized frames added to
this tick's mixer. -/
def Listener.processEmitters (env : AudioEnv) :
    Listener → List (ℕ × Emitter) → List SoundFrame →
    Listener × List (ℕ × Emitter) × List SoundFrame
  | l, [], mixer => (l, [], mixer)
  | l, (k, e) :: rest, mixer =>
    let (ofs, e') := e.get_frames
    let step :=
      match ofs with
      | none => (l, mixer)
      | some fs =>
        fs.foldl (fun acc f =>
          let r := Listener.apply_convolutions env acc.1 f e'
          (r.2, acc.2 ++ [r.1])) (l, mixer)
    let rest' := Listener.processEmitters env step.1 rest step.2
    (rest'.1, (k, e') :: rest'.2.1, rest'.2.2)

/-- The outer loop of AudioSystem::update: the emitter registry is threaded
through the listeners in order, so every emitter's cursors advance once per
listener. -/
def AudioSystem.processListeners (env : AudioEnv) :
    List (ℕ × Listener) → List (ℕ × Emitter) → List SoundFrame →
    List (ℕ × Listener) × List (ℕ × Emitter) × List SoundFrame
  | [], es, mixer => ([], es, mixer)
  | (k, l) :: rest, es, mixer =>
    let one := Listener.processEmitters env l es mixer
    let rest' := AudioSystem.processListeners env rest one.2.1 one.2.2
    ((k, one.1) :: rest'.1, rest'.2.1, rest'.2.2)

/-- AudioSystem::update (src/audio.rs lines 474-497): when the sink's queued
count is below FRAMES_TO_BUFFER, run one scheduling pass and append the
tick's mixer to the sink as a single block; otherwise the tick does
nothing. -/
def AudioSystem.update (env : AudioEnv) (sys : AudioSystem) : AudioSystem :=
  if sys.sink < FRAMES_TO_BUFFER then
    let pass := AudioSystem.processListeners env sys.listeners sys.emitters []
    { sys with listeners := pass.1, emitters := pass.2.1, sink := sys.sink + 1 }
  else sys

/-- Rewriting the registry entry with the given uid (models the in-place
mutation performed through HashMap::get_mut). -/
def AudioSystem.setEmitter (es : List (ℕ × Emitter)) (uid : ℕ) (e : Emitter) :
    List (ℕ × Emitter) :=
  es.map (fun kv => if kv.1 = uid then (kv.1, e) else kv)

/-- Pulling one tick of frames from a single registered emitter
(`system.get_emitter(uid)` followed by `get_frames()` on the borrowed
entry); the mutation is confined to the entry with that uid. -/
def AudioSystem.getFramesAt (sys : AudioSystem) (uid : ℕ) :
    Option (List SoundFrame) × AudioSystem :=
  match alistLookup sys.emitters uid with
  | none => (none, sys)
  | some e =>
    let r := e.get_frames
    (r.1, { sys with emitters := AudioSystem.setEmitter sys.emitters uid r.2 })

/- Concrete fixtures used by the witnesses below. -/

/-- A trivial but fully concrete environment of external operations. -/
def envTriv : AudioEnv :=
  { length := fun _ => 1
    normal := fun v => v
    rotorForwardNormal := fun _ v => v
    interleave := fun d => d }

/-- A small concrete frame. -/
def frameA : SoundFrame :=
  { data := [1, 2], duration := 0, channels := 1,
    sample_rate := 44100, size := 2 }

/-- A small concrete sound. -/
def soundA : Sound :=
  { frames := [frameA], channels := 1, sample_rate := 44100, duration := 0 }

/-- A one-entry library. -/
def libA : SoundLibrary := { sounds := [("beep", soundA)] }

/-- A concrete emitter with identity effect stages and no sounds. -/
def emitterBase : Emitter :=
  { transform := { pos := ⟨1, 0, 0⟩, rot := ⟨0, 0, -1⟩ }
    sounds := []
    sound_playback := none
    sink := 0
    ambisonics_encode := fun _ d => d
    ambisonics_decode := fun d => d
    ambisonics_binaural := fun d => d
    panning := fun _ d => d
    direct := fun _ d => d }

/-- A concrete listener at the origin facing -Z. -/
def listenerA : Listener :=
  { transform := { pos := ⟨0, 0, 0⟩, rot := ⟨0, 0, -1⟩ }
    frame_count := 0
    audio_queue := []
    mono_buffer := []
    stereo_buffer := []
    ambisonics2_buffer := []
    ambisonics1_buffer := [] }

/-- A listener with the same transform as listenerA but different scratch
buffers. -/
def listenerB : Listener := { listenerA with stereo_buffer := [9, 9] }

/-- A system whose sink already holds FRAMES_TO_BUFFER queued blocks. -/
def sysFull : AudioSystem :=
  { emitters := [(0, emitterBase.with_sound "beep" libA)]
    listeners := [(0, listenerA)]
    library := libA
    sink := 2 }

/-- A system with two emitters playing clones of the same sound. -/
def sysTwo : AudioSystem :=
  { emitters := [(0, emitterBase.with_sound "beep" libA),
                 (1, emitterBase.with_sound "beep" libA)]
    listeners := []
    library := libA
    sink := 0 }

/- Claim theorems. -/

/-- C1: Sound::new fails (assertion, modelled as `none`) exactly when the
sample vector is empty; on non-empty input it produces
ceil(len/FRAME_SIZE) frames, each exactly FRAME_SIZE samples long, whose
concatenation is the original input followed by zero padding only at the
end. -/
theorem sound_new_partitions (data : List Sample) (channels sample_rate : ℕ) :
    (Sound.new? data channels sample_rate = none ↔ data = [])
    ∧ (data ≠ [] → ∃ s, Sound.new? data channels sample_rate = some s
        ∧ s.frames.length = (data.length + (FRAME_SIZE - 1)) / FRAME_SIZE
        ∧ (∀ f ∈ s.frames, f.data.length = FRAME_SIZE ∧ f.size = FRAME_SIZE)
        ∧ (s.frames.map SoundFrame.data).flatten
            = data ++ List.replicate (s.frames.length * FRAME_SIZE - data.length) 0) := by
  have hpos : 0 < FRAME_SIZE := by decide
  have hmax : max FRAME_SIZE 1 = FRAME_SIZE := by decide
  constructor
  · unfold Sound.new?
    split
    · simp_all
    · simp_all
  · intro hne
    rw [Sound.new?, if_neg hne]
    refine ⟨_, rfl, ?_, ?_, ?_⟩
    · rw [List.length_map, rustChunks, hmax]
      exact chunksFuel_length FRAME_SIZE hpos data.length data le_rfl
    · intro f hf
      rw [List.mem_map] at hf
      obtain ⟨c, hc, rfl⟩ := hf
      rw [rustChunks, hmax] at hc
      have hcle : c.length ≤ FRAME_SIZE :=
        chunksFuel_mem_length_le FRAME_SIZE data.length data c hc
      constructor
      · simp only [List.length_append, List.length_replicate]
        omega
      · simp only [List.length_append, List.length_replicate]
        omega
    · rw [List.map_map, List.length_map, rustChunks, hmax]
      exact chunksFuel_padded_join FRAME_SIZE hpos data.length data le_rfl

/-- Witness for C1 at the concrete input [1]. -/
theorem sound_new_partitions_witness :
    ([(1 : ℚ)] ≠ [])
    ∧ (∃ s, Sound.new? [(1 : ℚ)] 1 44100 = some s
        ∧ s.frames.length = (List.length [(1 : ℚ)] + (FRAME_SIZE - 1)) / FRAME_SIZE
        ∧ (∀ f ∈ s.frames, f.data.length = FRAME_SIZE ∧ f.size = FRAME_SIZE)
        ∧ (s.frames.map SoundFrame.data).flatten
            = [(1 : ℚ)]
              ++ List.replicate (s.frames.length * FRAME_SIZE - List.length [(1 : ℚ)]) 0) :=
  ⟨by simp, (sound_new_partitions [(1 : ℚ)] 1 44100).2 (by simp)⟩

/-- C2: when the sink already holds at least FRAMES_TO_BUFFER queued blocks,
AudioSystem::update is a no-op: it enqueues nothing and leaves every
emitter, listener and the whole system state unchanged. -/
theorem update_backpressure (env : AudioEnv) (sys : AudioSystem)
    (h : FRAMES_TO_BUFFER ≤ sys.sink) :
    AudioSystem.update env sys = sys := by
  rw [AudioSystem.update, if_neg (by omega)]

/-- Witness for C2 on a concrete saturated system. -/
theorem update_backpressure_witness :
    FRAMES_TO_BUFFER ≤ sysFull.sink
    ∧ AudioSystem.update envTriv sysFull = sysFull :=
  ⟨by decide, update_backpressure envTriv sysFull (by decide)⟩

/-- C3: apply_convolutions on a mono input frame returns a frame whose
channel count is 2 and whose size, duration and sample-rate fields are
exactly those of the input frame. -/
theorem apply_convolutions_shape (env : AudioEnv) (l : Listener)
    (emitter : Emitter) (frame : SoundFrame) (_h : frame.channels = 1) :
    (Listener.apply_convolutions env l frame emitter).1.channels = 2
    ∧ (Listener.apply_convolutions env l frame emitter).1.size = frame.size
    ∧ (Listener.apply_convolutions env l frame emitter).1.duration = frame.duration
    ∧ (Listener.apply_convolutions env l frame emitter).1.sample_rate
        = frame.sample_rate :=
  ⟨rfl, rfl, rfl, rfl⟩

/-- Witness for C3 on a concrete mono frame. -/
theorem apply_convolutions_shape_witness :
    frameA.channels = 1
    ∧ ((Listener.apply_convolutions envTriv listenerA frameA emitterBase).1.channels = 2
      ∧ (Listener.apply_convolutions envTriv listenerA frameA emitterBase).1.size
          = frameA.size
      ∧ (Listener.apply_convolutions envTriv listenerA frameA emitterBase).1.duration
          = frameA.duration
      ∧ (Listener.apply_convolutions envTriv listenerA frameA emitterBase).1.sample_rate
          = frameA.sample_rate) :=
  ⟨rfl, apply_convolutions_shape envTriv listenerA emitterBase frameA rfl⟩

/-- C4: the distance-attenuation coefficient is the unclamped reciprocal of
the emitter-listener distance, so it is strictly larger at the smaller of
two positive distances. -/
theorem distanceAttenuation_strict_anti (d1 d2 : ℚ) (h1 : 0 < d1)
    (h2 : d1 < d2) : distanceAttenuation d2 < distanceAttenuation d1 := by
  unfold distanceAttenuation
  exact one_div_lt_one_div_of_lt h1 h2

/-- Witness for C4 at distances 1 and 2. -/
theorem distanceAttenuation_strict_anti_witness :
    (0 : ℚ) < 1 ∧ (1 : ℚ) < 2
    ∧ distanceAttenuation 2 < distanceAttenuation 1 :=
  ⟨by norm_num, by norm_num,
    distanceAttenuation_strict_anti 1 2 (by norm_num) (by norm_num)⟩

/-- An emitter with one attached sound, for the witnesses below. -/
def emitterE : Emitter := emitterBase.with_sound "beep" libA

/-- C5: get_frames advances every assigned sound's frame cursor by one
block, returns (in order) exactly one frame per assigned sound that still
had data, and returns none exactly when no assigned sound has data left. -/
theorem get_frames_spec (e : Emitter) :
    e.get_frames.2.sounds
        = e.sounds.map (fun s => { s with frames := s.frames.tail })
    ∧ e.get_frames.1
        = (if e.sounds.filterMap (fun s => s.frames.head?) = [] then none
           else some (e.sounds.filterMap (fun s => s.frames.head?)))
    ∧ (e.get_frames.1 = none ↔ ∀ s ∈ e.sounds, s.frames = []) := by
  have hsnd : ∀ s : Sound,
      (Sound.nextFrame s).2 = { s with frames := s.frames.tail } := by
    intro s
    rcases s with ⟨fr, ch, r, d⟩
    cases fr <;> rfl
  have hfst : ∀ s : Sound, (Sound.nextFrame s).1 = s.frames.head? := by
    intro s
    rcases s with ⟨fr, ch, r, d⟩
    cases fr <;> rfl
  have hB : (e.sounds.map Sound.nextFrame).filterMap Prod.fst
      = e.sounds.filterMap (fun s => s.frames.head?) := by
    rw [List.filterMap_map]
    congr 1
    funext s
    exact hfst s
  have h2 : e.get_frames.1
      = (if e.sounds.filterMap (fun s => s.frames.head?) = [] then none
         else some (e.sounds.filterMap (fun s => s.frames.head?))) := by
    show (if (e.sounds.map Sound.nextFrame).filterMap Prod.fst = [] then none
          else some ((e.sounds.map Sound.nextFrame).filterMap Prod.fst)) = _
    rw [hB]
  refine ⟨?_, h2, ?_⟩
  · show (e.sounds.map Sound.nextFrame).map Prod.snd = _
    rw [List.map_map]
    congr 1
    funext s
    exact hsnd s
  · rw [h2]
    constructor
    · intro hnone
      by_cases hb : e.sounds.filterMap (fun s => s.frames.head?) = []
      · intro s hs
        rw [List.filterMap_eq_nil_iff] at hb
        have := hb s hs
        simpa using this
      · rw [if_neg hb] at hnone
        exact absurd hnone (by simp)
    · intro hall
      have hb : e.sounds.filterMap (fun s => s.frames.head?) = [] := by
        rw [List.filterMap_eq_nil_iff]
        intro s hs
        simp [hall s hs]
      rw [if_pos hb]

/-- Witness for C5 on a concrete emitter with one attached sound. -/
theorem get_frames_spec_witness :
    emitterE.get_frames.2.sounds
        = emitterE.sounds.map (fun s => { s with frames := s.frames.tail })
    ∧ emitterE.get_frames.1
        = (if emitterE.sounds.filterMap (fun s => s.frames.head?) = [] then none
           else some (emitterE.sounds.filterMap (fun s => s.frames.head?)))
    ∧ (emitterE.get_frames.1 = none ↔ ∀ s ∈ emitterE.sounds, s.frames = []) :=
  get_frames_spec emitterE

set_option maxRecDepth 100000 in
/-- C6: the per-frame duration follows FRAME_SIZE/(sample_rate·channels) as
the claim states, but the stored total duration multiplies the sample count
by FRAME_SIZE: for 1024 mono samples at 44100 Hz the single produced frame
lasts 23219954 ns (≈ 23 ms) while the Sound's total duration is
23777000000 ns (≈ 23.8 s) instead of the claimed
len/(sample_rate·channels) ≈ 23 ms — a factor of FRAME_SIZE. -/
theorem sound_new_duration_mismatch :
    (Sound.new? (List.replicate 1024 (0 : Sample)) 1 44100).map Sound.duration
      = some 23777000000
    ∧ (Sound.new? (List.replicate 1024 (0 : Sample)) 1 44100).map
        (fun s => s.frames.map SoundFrame.duration) = some [23219954]
    ∧ durFromMillis
        (1000 * (List.replicate 1024 (0 : Sample)).length / (44100 * 1))
      = 23000000 :=
  ⟨rfl, rfl, rfl⟩

theorem alistLookup_setEmitter_ne (es : List (ℕ × Emitter)) (u1 u2 : ℕ)
    (h : u1 ≠ u2) (e : Emitter) :
    alistLookup (AudioSystem.setEmitter es u1 e) u2 = alistLookup es u2 := by
  induction es with
  | nil => rfl
  | cons kv rest ih =>
    rcases kv with ⟨k, v⟩
    by_cases hk : k = u1
    · have hk2 : ¬ k = u2 := by rw [hk]; exact h
      rw [show AudioSystem.setEmitter ((k, v) :: rest) u1 e
          = (k, e) :: AudioSystem.setEmitter rest u1 e from by
        simp [AudioSystem.setEmitter, hk]]
      simp only [alistLookup]
      rw [if_neg hk2, if_neg hk2]
      exact ih
    · rw [show AudioSystem.setEmitter ((k, v) :: rest) u1 e
          = (k, v) :: AudioSystem.setEmitter rest u1 e from by
        simp [AudioSystem.setEmitter, hk]]
      simp only [alistLookup]
      by_cases hk2 : k = u2
      · rw [if_pos hk2, if_pos hk2]
      · rw [if_neg hk2, if_neg hk2]
        exact ih

/-- C7: frame cursors of registered emitters are independent: pulling one
tick of frames from the emitter registered at one uid leaves the registry
entry at every other uid — in particular a second emitter playing a clone
of the same Sound — exactly unchanged, cursors included. -/
theorem cursors_independent (sys : AudioSystem) (u1 u2 : ℕ) (h : u1 ≠ u2) :
    alistLookup (sys.getFramesAt u1).2.emitters u2
      = alistLookup sys.emitters u2 := by
  unfold AudioSystem.getFramesAt
  cases hl : alistLookup sys.emitters u1 with
  | none => rfl
  | some e => exact alistLookup_setEmitter_ne sys.emitters u1 u2 h e.get_frames.2

/-- Witness for C7: two emitters playing clones of the same library sound;
pulling frames from uid 0 leaves uid 1 untouched. -/
theorem cursors_independent_witness :
    (0 : ℕ) ≠ 1
    ∧ alistLookup (sysTwo.getFramesAt 0).2.emitters 1
        = alistLookup sysTwo.emitters 1 :=
  ⟨by decide, cursors_independent sysTwo 0 1 (by decide)⟩

/-- C8: with_sound never fails: a name absent from the library leaves the
emitter's sound list unchanged, and a present name appends exactly one
fresh cloned Sound instance at the end. -/
theorem with_sound_spec (e : Emitter) (name : String) (library : SoundLibrary) :
    (library.get_sound name = none →
      (e.with_sound name library).sounds = e.sounds)
    ∧ (∀ s, library.get_sound name = some s →
        (e.with_sound name library).sounds = e.sounds ++ [s]) := by
  constructor
  · intro h
    unfold Emitter.with_sound
    rw [h]
  · intro s h
    unfold Emitter.with_sound
    rw [h]

/-- Witness for C8: a missing name and a present name against the concrete
one-entry library. -/
theorem with_sound_spec_witness :
    (libA.get_sound "nonexistent" = none
      ∧ (emitterBase.with_sound "nonexistent" libA).sounds = emitterBase.sounds)
    ∧ (libA.get_sound "beep" = some soundA
      ∧ (emitterBase.with_sound "beep" libA).sounds
          = emitterBase.sounds ++ [soundA]) :=
  ⟨⟨rfl, (with_sound_spec emitterBase "nonexistent" libA).1 rfl⟩,
   ⟨rfl, (with_sound_spec emitterBase "beep" libA).2 soundA rfl⟩⟩

/-- C9: apply_convolutions is stateless per call: its output frame is
determined by the input frame, the emitter, and the listener's transform
alone, so two calls with identical frames and identical geometry produce
identical outputs even from listeners whose scratch-buffer states differ. -/
theorem apply_convolutions_deterministic (env : AudioEnv) (emitter : Emitter)
    (f1 f2 : SoundFrame) (l1 l2 : Listener)
    (hf : f1 = f2) (ht : l1.transform = l2.transform) :
    (Listener.apply_convolutions env l1 f1 emitter).1
      = (Listener.apply_convolutions env l2 f2 emitter).1 := by
  subst hf
  simp only [Listener.apply_convolutions]
  rw [ht]

/-- Witness for C9: listeners with equal transforms but different stereo
scratch buffers give the same output on the same frame. -/
theorem apply_convolutions_deterministic_witness :
    frameA = frameA
    ∧ listenerA.transform = listenerB.transform
    ∧ (Listener.apply_convolutions envTriv listenerA frameA emitterBase).1
        = (Listener.apply_convolutions envTriv listenerB frameA emitterBase).1 :=
  ⟨rfl, rfl,
    apply_convolutions_deterministic envTriv emitterBase frameA frameA
      listenerA listenerB rfl rfl⟩

theorem collectFrames_eq_map (fs : List SoundFrame)
    (h : ∀ f ∈ fs, f.data ≠ []) :
    collectFrames fs = fs.map (fun f => f.data.headD 0) := by
  induction fs with
  | nil => rfl
  | cons f rest ih =>
    have hf : f.data ≠ [] := h f (List.mem_cons_self f rest)
    cases hd : f.data with
    | nil => exact absurd hd hf
    | cons x xs =>
      have e1 : collectFrames (f :: rest) = x :: collectFrames rest := by
        simp [collectFrames, hd]
      have e2 : f.data.headD 0 = x := by simp [hd]
      rw [e1, List.map_cons, e2,
        ih (fun g hg => h g (List.mem_cons_of_mem f hg))]

/-- C10: each call of Sound's sample-level Iterator consumes one whole
SoundFrame from the cursor but yields only that frame's first sample, so
iterating a Sound produced by Sound::new yields exactly one sample per
stored frame — the frame's first — rather than the full PCM stream. -/
theorem sound_iterator_one_sample_per_frame :
    (∀ s : Sound, (Sound.next s).2.frames = s.frames.tail
      ∧ (Sound.next s).1 = s.frames.head?.bind (fun f => f.data.head?))
    ∧ (∀ (data : List Sample) (channels sample_rate : ℕ) (s : Sound),
        Sound.new? data channels sample_rate = some s →
        s.collectSamples = s.frames.map (fun f => f.data.headD 0)
        ∧ s.collectSamples.length = s.frames.length) := by
  constructor
  · intro s
    rcases s with ⟨fr, ch, r, d⟩
    cases fr <;> simp [Sound.next]
  · intro data channels sample_rate s hs
    have hne : data ≠ [] := by
      intro hd
      rw [hd] at hs
      simp [Sound.new?] at hs
    rw [Sound.new?, if_neg hne] at hs
    obtain rfl := Option.some.inj hs
    have hframes : ∀ f ∈ (rustChunks (max FRAME_SIZE 1) data).map (fun c =>
        let v := c ++ List.replicate (FRAME_SIZE - c.length) (0 : Sample)
        { size := v.length, data := v, channels := channels,
          sample_rate := sample_rate,
          duration := durNew
            (1000000000 * FRAME_SIZE / sample_rate / channels / 1000000000)
            (1000000000 * FRAME_SIZE / sample_rate / channels % 1000000000)
          : SoundFrame }), f.data ≠ [] := by
      intro f hf
      rw [List.mem_map] at hf
      obtain ⟨c, hc, rfl⟩ := hf
      rw [rustChunks] at hc
      have hc0 : c ≠ [] :=
        chunksFuel_mem_ne_nil (max FRAME_SIZE 1) (by decide) data.length data c hc
      intro hcontra
      rw [List.append_eq_nil] at hcontra
      exact hc0 hcontra.1
    have hcol := collectFrames_eq_map _ hframes
    constructor
    · exact hcol
    · show (collectFrames _).length = _
      rw [hcol, List.length_map]

/-- The sound built by Sound::new from two samples, for the C10 witness. -/
def soundTwo : Sound :=
  (Sound.new? [(1 : ℚ), 2] 1 44100).getD
    { frames := [], channels := 0, sample_rate := 0, duration := 0 }

/-- Witness for C10 on the two-sample sound. -/
theorem sound_iterator_one_sample_per_frame_witness :
    Sound.new? [(1 : ℚ), 2] 1 44100 = some soundTwo
    ∧ (soundTwo.collectSamples
        = soundTwo.frames.map (fun f => f.data.headD 0)
      ∧ soundTwo.collectSamples.length = soundTwo.frames.length) :=
  ⟨rfl,
    sound_iterator_one_sample_per_frame.2 [(1 : ℚ), 2] 1 44100 soundTwo rfl⟩
